import Mathlib

/-!
Verification development for the snorkium ECS core
(source files: src/ecs/mod.rs, src/ecs/set.rs, src/ecs/query.rs).

Shallow embedding conventions:
* Rust machine integers are modelled as Nat with explicit reductions
  (u8 generation arithmetic is reduced mod 256, u32 packing mod 2^32);
  the spec states that the 8-bit generation counter wraps on reuse,
  matching release-mode wrapping arithmetic.
* A Rust panic (out-of-bounds Vec index, unwrap of None) is modelled by
  returning none from an Option-valued function; the some case carries
  the ordinary result.
* Vec and VecDeque are modelled as List; VecDeque push_back appends at
  the tail and pop_front takes the head, matching FIFO order.
-/

/-- ID_BITS from mod.rs: the number of low bits of the packed entity
handle that hold the index. -/
def ID_BITS : Nat := 24

/-- MIN_UNUSED from mod.rs: the recycling hysteresis threshold. -/
def MIN_UNUSED : Nat := 1024

/-! ## Entity handles

Rust: struct Entity { id: u32 } with equality on the raw bits.
We model the handle by its raw u32 value. -/

/-- Entity::new(gen: u8, id: u32): ((gen as u32) shifted left by ID_BITS) + id,
as a u32 (wrapping mod 2^32).  gen is a u8, hence already below 256. -/
def entityNew (gen id : Nat) : Nat :=
  ((gen % 256) * 2 ^ ID_BITS + id) % 2 ^ 32

/-- Entity::gen(): (raw shifted right by ID_BITS) as u8. -/
def entityGen (e : Nat) : Nat :=
  (e / 2 ^ ID_BITS) % 256

/-- Entity::id(): raw masked to the low ID_BITS bits. -/
def entityId (e : Nat) : Nat :=
  e % 2 ^ ID_BITS

/-! ## EntityManager (mod.rs lines 206-261) -/

/-- EntityManager from mod.rs: gens is the index-to-generation table
(Vec of u8), unused the FIFO queue of freed indices (VecDeque of u32). -/
structure EntityManager where
  gens : List Nat
  unused : List Nat
deriving DecidableEq, Repr

namespace EntityManager

/-- EntityManager::new(). -/
def new : EntityManager := ⟨[], []⟩

/-- EntityManager::next(): if the free queue holds at least MIN_UNUSED
entries, pop the oldest freed index and pair it with its current
generation; otherwise push generation 0 and hand out the fresh index.
The none results model the panics of unwrap on an empty queue and of
indexing gens out of bounds. -/
def next (m : EntityManager) : Option (EntityManager × Nat) :=
  if MIN_UNUSED ≤ m.unused.length then
    match m.unused with
    | [] => none
    | id :: rest =>
      match m.gens[id]? with
      | none => none
      | some g => some (⟨m.gens, rest⟩, entityNew g id)
  else
    some (⟨m.gens ++ [0], m.unused⟩, entityNew 0 m.gens.length)

/-- EntityManager::is_alive(e): gens[e.id()] == e.gen().  The Rust code
indexes the Vec directly, so an index at or past the table length is a
panic (none). -/
def is_alive (m : EntityManager) (e : Nat) : Option Bool :=
  (m.gens[entityId e]?).map (fun g => g == entityGen e)

/-- EntityManager::verify(e): Some(VerifiedEntity) when alive, else None.
The inner Option is the Rust return value; the outer none is the panic
propagated from is_alive. -/
def verify (m : EntityManager) (e : Nat) : Option (Option Nat) :=
  (m.is_alive e).map (fun b => if b then some e else none)

/-- EntityManager::destroy(e): no-op when not alive, otherwise increment
the index's generation (u8 wrapping) and enqueue the index as free. -/
def destroy (m : EntityManager) (e : Nat) : Option EntityManager :=
  match m.is_alive e with
  | none => none
  | some false => some m
  | some true =>
    some ⟨m.gens.set (entityId e) ((entityGen e + 1) % 256),
          m.unused ++ [entityId e]⟩

end EntityManager

/-! ## DefaultStorage (mod.rs lines 96-198) -/

/-- DefaultStorage from mod.rs: data is the packed Vec of
(entity, value) pairs, indices the sparse entity-index to offset table,
unused the FIFO queue of free offsets in data. -/
structure DefaultStorage (T : Type) where
  data : List (Nat × T)
  indices : List (Option Nat)
  unused : List Nat
deriving DecidableEq, Repr

namespace DefaultStorage

variable {T : Type}

/-- The while loop at the top of DefaultStorage::set: push None onto
indices while indices.len() is strictly below id.  Note this only
guarantees a final length of id, not id + 1. -/
def extendIndices (indices : List (Option Nat)) (id : Nat) : List (Option Nat) :=
  indices ++ List.replicate (id - indices.length) none

/-- DefaultStorage::set(e, v) from mod.rs.  After the while loop it
indexes indices[id] directly (none models the panic when that read is
out of bounds); the occupied branch overwrites data[idx]; the
free-queue branch reuses a popped offset; the append branch pushes and
then records Some(data.len()) computed after the push. -/
def set (s : DefaultStorage T) (e : Nat) (v : T) : Option (DefaultStorage T) :=
  let id := entityId e
  let indices := extendIndices s.indices id
  match indices[id]? with
  | none => none
  | some (some idx) =>
    if idx < s.data.length then
      some ⟨s.data.set idx (e, v), indices, s.unused⟩
    else
      none
  | some none =>
    match s.unused with
    | idx :: rest =>
      if idx < s.data.length then
        some ⟨s.data.set idx (e, v), indices.set id (some idx), rest⟩
      else
        none
    | [] =>
      some ⟨s.data ++ [(e, v)], indices.set id (some (s.data.length + 1)), []⟩

/-- DefaultStorage::has(e): true only when the index slot is occupied
and the stored entity at that offset equals e bit for bit. -/
def has (s : DefaultStorage T) (e : Nat) : Option Bool :=
  match s.indices[entityId e]? with
  | some (some idx) => (s.data[idx]?).map (fun p => p.1 == e)
  | _ => some false

/-- DefaultStorage::get(e): the stored value only when the index slot is
occupied and the stored entity matches e exactly. -/
def get (s : DefaultStorage T) (e : Nat) : Option (Option T) :=
  match s.indices[entityId e]? with
  | some (some idx) =>
    match s.data[idx]? with
    | none => none
    | some p => some (if p.1 == e then some p.2 else none)
  | _ => some none

/-- DefaultStorage::get_mut(e): same selection logic as get. -/
def get_mut (s : DefaultStorage T) (e : Nat) : Option (Option T) :=
  match s.indices[entityId e]? with
  | some (some idx) =>
    match s.data[idx]? with
    | none => none
    | some p => some (if p.1 == e then some p.2 else none)
  | _ => some none

/-- DefaultStorage::remove(e): when an index entry exists the offset is
pushed onto the free queue and the index slot cleared unconditionally;
the stored value is returned only when the stored entity matches e. -/
def remove (s : DefaultStorage T) (e : Nat) : Option (Option T × DefaultStorage T) :=
  let id := entityId e
  match s.indices[id]? with
  | some (some idx) =>
    match s.data[idx]? with
    | none => none
    | some p =>
      some (if p.1 == e then some p.2 else none,
            ⟨s.data, s.indices.set id none, s.unused ++ [idx]⟩)
  | _ => some (none, s)

/-- DefaultStorage::entities(): the iterator over stored entities, in
data order. -/
def entities (s : DefaultStorage T) : List Nat :=
  s.data.map (fun p => p.1)

end DefaultStorage

/-! ## Operation traces over the EntityManager

Used to state the liveness properties that quantify over sequences of
next and destroy calls.  The destroy operation carries the raw entity
handle it is called with. -/

/-- One EntityManager call in a trace: next() or destroy(e). -/
inductive Op where
  | next : Op
  | destroy : Nat → Op
deriving DecidableEq, Repr

namespace EntityManager

/-- Apply one traced operation; none propagates a panic. -/
def step (m : EntityManager) : Op → Option EntityManager
  | Op.next => (m.next).map Prod.fst
  | Op.destroy e => m.destroy e

/-- Run a whole trace of operations left to right. -/
def run (m : EntityManager) (ops : List Op) : Option EntityManager :=
  ops.foldlM step m

/-- The number of destroy calls in a trace whose argument carries the
given index. -/
def countDestroysAt (i : Nat) (ops : List Op) : Nat :=
  ops.countP (fun op => match op with
    | Op.destroy e => entityId e == i
    | Op.next => false)

/-- Well-formedness of an EntityManager state: the index table is below
the 24-bit index capacity, generations are u8 values, and every queued
free index points into the table.  These hold for every state the Rust
code reaches before 2^24 allocations. -/
def wf (m : EntityManager) : Prop :=
  m.gens.length < 2 ^ ID_BITS ∧
  (∀ g ∈ m.gens, g < 256) ∧
  (∀ i ∈ m.unused, i < m.gens.length)

instance (m : EntityManager) : Decidable m.wf := by
  unfold wf; infer_instance

end EntityManager

/-! ## Filters and the pipeline (query.rs lines 221-311)

The Rust pipeline is macro-generated per arity over a tuple of filters,
each filter paired (through the locked subset) with its component
type's storage.  The trait surface the generated code uses from a
filter/storage pair is exactly: the storage's entities() sequence, the
filter's pred against that storage, and the storage's get.  We embed a
filter/storage pair as that record; component value types are unified
into one type V (heterogeneous tuples can be read off through a sum
type without affecting which entities are visited, in which order, or
which storage each value is fetched from).  Items are lists with the
head filter's value first, mirroring the generated tuples. -/

/-- One filter together with the storage it tests: the storage's
entities() order, the filter's pred, and the storage's get.  The get
result is the Rust Option: none means the storage reports absence. -/
structure FilterM (V : Type) where
  entities : List Nat
  pred : Nat → Bool
  get : Nat → Option V

namespace Pipeline

variable {V U : Type}

/-- The seed phase (FilterExt::all in query.rs): enumerate the head
filter's storage entities, verify each against the EntityManager
(mapM propagates the is_alive panic), drop the dead, keep those passing
the head predicate, and wrap the survivors in Some. -/
def seed (em : EntityManager) (f0 : FilterM V) : Option (List (Option Nat)) := do
  let vs ← f0.entities.mapM (fun e => em.verify e)
  pure (((vs.filterMap id).filter f0.pred).map some)

/-- The refine phase for one filter (FilterExt::filter in query.rs):
tombstone (set to none) every slot whose entity fails the predicate. -/
def refineOne (fi : FilterM V) (l : List (Option Nat)) : List (Option Nat) :=
  l.map (fun slot => match slot with
    | none => none
    | some e => if fi.pred e then some e else none)

/-- The refine phase over all remaining filters, applied in tuple
order. -/
def refineAll (tail : List (FilterM V)) (l : List (Option Nat)) : List (Option Nat) :=
  tail.foldl (fun acc fi => refineOne fi acc) l

/-- The materialize step for one surviving entity: fetch one value per
filter, head filter first; a failed fetch is the unwrap panic (none). -/
def materialize (f0 : FilterM V) (tail : List (FilterM V)) (e : Nat) : Option (List V) := do
  let v0 ← f0.get e
  let vs ← tail.mapM (fun fi => fi.get e)
  pure (v0 :: vs)

/-- Pipeline::for_each from query.rs (the generated pipeline_impl body):
seed from the head filter, refine through the tail filters in order,
then for each surviving slot materialize the per-filter data and apply
the caller's function, collecting the outputs in seed order. -/
def forEach (em : EntityManager) (f0 : FilterM V) (tail : List (FilterM V))
    (fn : Nat → List V → U) : Option (List U) := do
  let cands ← seed em f0
  ((refineAll tail cands).filterMap id).mapM (fun e => do
    let item ← materialize f0 tail e
    pure (fn e item))

/-- The per-match item: the head filter's stored value followed by each
tail filter's stored value, in tuple order. -/
def itemOf (f0 : FilterM V) (tail : List (FilterM V)) (e : Nat) : List V :=
  (f0.get e).toList ++ tail.filterMap (fun fi => fi.get e)

end Pipeline

/-! ## Component sets, lock groups and locked subsets (set.rs)

Component types are identified by their TypeId, modelled as a Nat; the
storage payload behind each lock is abstracted as a value of V.  The
same-type test (the IsSame specialization trick in set.rs) becomes
equality of the TypeId numbers. -/

/-- The Set chain from set.rs: Empty, or a SetEntry wrapping one
component type's storage (behind its Mutex) around a parent set. -/
inductive SetChain (V : Type) where
  | empty : SetChain V
  | entry (tid : Nat) (storage : V) (parent : SetChain V) : SetChain V
deriving DecidableEq, Repr

namespace SetChain

variable {V : Type}

/-- The component TypeIds a set chain declares, outermost first. -/
def tids : SetChain V → List Nat
  | empty => []
  | entry t _ p => t :: p.tids

/-- Set::lock_storage from set.rs: walk the chain comparing TypeIds;
reaching Empty is the explicit panic ("Attempted access of component
not in set."), modelled as Except.error. -/
def lock_storage : SetChain V → Nat → Except Unit V
  | empty, _ => Except.error ()
  | entry t s p, c => if t == c then Except.ok s else p.lock_storage c

end SetChain

/-- The LockedSubset chain from set.rs: Empty, or a SubsetEntry holding
one acquired guard around a parent subset. -/
inductive Subset (V : Type) where
  | empty : Subset V
  | entry (tid : Nat) (guard : V) (parent : Subset V) : Subset V
deriving DecidableEq, Repr

namespace Subset

variable {V : Type}

/-- The component TypeIds a locked subset holds guards for. -/
def tids : Subset V → List Nat
  | empty => []
  | entry t _ p => t :: p.tids

/-- LockedSubset::get_storage from set.rs: walk the chain, returning
None from the Empty base case instead of panicking. -/
def get_storage : Subset V → Nat → Option V
  | empty, _ => none
  | entry t s p, c => if t == c then some s else p.get_storage c

/-- LockedSubset::get_storage_mut from set.rs: identical walk. -/
def get_storage_mut : Subset V → Nat → Option V
  | empty, _ => none
  | entry t s p, c => if t == c then some s else p.get_storage_mut c

end Subset

namespace LockGroup

variable {V : Type}

/-- LockGroup::lock from the group_impl macro in set.rs, for a declared
tuple of component TypeIds.  The generated code first locks the tail of
the tuple recursively (the parent subset), then acquires the head
type's storage lock.  Alongside the built subset we record the sequence
of lock acquisition events in the order they happen; none propagates
the panic from lock_storage on an undeclared type. -/
def lock (set : SetChain V) : List Nat → Option (Subset V × List Nat)
  | [] => some (Subset.empty, [])
  | t :: rest => do
    let (parent, evs) ← lock set rest
    match set.lock_storage t with
    | Except.error _ => none
    | Except.ok s => pure (Subset.entry t s parent, evs ++ [t])

end LockGroup

namespace EntityManager

/-- The boolean is_alive yields when the table read does not panic. -/
def aliveB (m : EntityManager) (e : Nat) : Bool :=
  match m.is_alive e with
  | some b => b
  | none => false

end EntityManager

namespace Pipeline

/-- The conjunction of conditions an entity must meet to be visited:
alive, passing the head predicate, passing every tail predicate. -/
def goodB {V : Type} (em : EntityManager) (f0 : FilterM V) (tail : List (FilterM V))
    (e : Nat) : Bool :=
  em.aliveB e && f0.pred e && tail.all (fun fi => fi.pred e)

end Pipeline

/-! ## Supporting lemmas for the pipeline claims -/

namespace EntityManager

theorem is_alive_eq_aliveB (m : EntityManager) (e : Nat)
    (h : entityId e < m.gens.length) :
    m.is_alive e = some (m.aliveB e) := by
  have hg : m.gens[entityId e]? = some (m.gens.get ⟨entityId e, h⟩) :=
    List.getElem?_eq_getElem h
  simp [is_alive, aliveB, hg]

theorem verify_eq_of_lt (m : EntityManager) (e : Nat)
    (h : entityId e < m.gens.length) :
    m.verify e = some (if m.aliveB e then some e else none) := by
  rw [verify, is_alive_eq_aliveB m e h]
  rfl

end EntityManager

namespace Pipeline

variable {V U : Type}

theorem mapM_verify (em : EntityManager) (l : List Nat)
    (h : ∀ e ∈ l, entityId e < em.gens.length) :
    l.mapM (fun e => em.verify e) =
      some (l.map (fun e => if em.aliveB e then some e else none)) := by
  induction l with
  | nil => rfl
  | cons a l ih =>
    rw [List.mapM_cons, em.verify_eq_of_lt a (h a (List.mem_cons_self a l)),
      ih (fun e he => h e (List.mem_cons_of_mem a he))]
    rfl

theorem filterMap_id_map_if {α : Type} (p : α → Bool) (l : List α) :
    (l.map (fun e => if p e then some e else none)).filterMap id = l.filter p := by
  induction l with
  | nil => rfl
  | cons a l ih => by_cases hp : p a <;> simp [hp, ih]

/-- The seed phase, under the no-panic condition, produces exactly the
alive entities of the head storage that pass the head predicate, in
storage order, each wrapped in some. -/
theorem seed_eq (em : EntityManager) (f0 : FilterM V)
    (h : ∀ e ∈ f0.entities, entityId e < em.gens.length) :
    seed em f0 =
      some (((f0.entities.filter (em.aliveB)).filter f0.pred).map some) := by
  rw [seed, bind_pure_comp]
  rw [mapM_verify em f0.entities h, Option.map_some, filterMap_id_map_if]

theorem filterMap_id_refineOne (fi : FilterM V) (l : List (Option Nat)) :
    (refineOne fi l).filterMap id = (l.filterMap id).filter fi.pred := by
  induction l with
  | nil => rfl
  | cons slot l ih =>
    match slot with
    | none => simpa [refineOne] using ih
    | some e =>
      by_cases hp : fi.pred e <;> simp [refineOne, hp] at ih ⊢ <;> exact ih

theorem filterMap_id_refineAll (tail : List (FilterM V)) (l : List (Option Nat)) :
    (refineAll tail l).filterMap id =
      (l.filterMap id).filter (fun e => tail.all (fun fi => fi.pred e)) := by
  induction tail generalizing l with
  | nil => simp [refineAll]
  | cons fi rest ih =>
    rw [refineAll, List.foldl_cons]
    rw [show List.foldl (fun acc f => refineOne f acc) (refineOne fi l) rest =
      refineAll rest (refineOne fi l) from rfl]
    rw [ih, filterMap_id_refineOne, List.filter_filter]
    exact List.filter_congr (fun e _ => by simp [Bool.and_comm])

theorem mapM_get_eq (e : Nat) (tail : List (FilterM V))
    (h : ∀ fi ∈ tail, (fi.get e).isSome = true) :
    tail.mapM (fun fi => fi.get e) =
      some (tail.filterMap (fun fi => fi.get e)) := by
  induction tail with
  | nil => rfl
  | cons fi rest ih =>
    obtain ⟨v, hv⟩ := Option.isSome_iff_exists.mp (h fi (List.mem_cons_self fi rest))
    rw [List.mapM_cons, hv, ih (fun f hf => h f (List.mem_cons_of_mem fi hf))]
    simp [hv]

theorem materialize_eq (f0 : FilterM V) (tail : List (FilterM V)) (e : Nat)
    (h0 : (f0.get e).isSome = true)
    (ht : ∀ fi ∈ tail, (fi.get e).isSome = true) :
    materialize f0 tail e = some (itemOf f0 tail e) := by
  obtain ⟨v, hv⟩ := Option.isSome_iff_exists.mp h0
  rw [materialize, hv, mapM_get_eq e tail ht]
  simp [itemOf, hv]

theorem mapM_eq_map_of_some {α β : Type} (g : α → Option β) (h : α → β) (l : List α)
    (hl : ∀ x ∈ l, g x = some (h x)) :
    l.mapM g = some (l.map h) := by
  induction l with
  | nil => rfl
  | cons a l ih =>
    rw [List.mapM_cons, hl a (List.mem_cons_self a l),
      ih (fun x hx => hl x (List.mem_cons_of_mem a hx))]
    rfl

end Pipeline

/-! ## Supporting lemmas for the liveness claims -/

theorem getElem?_append_of_lt {α : Type} (l₁ l₂ : List α) (i : Nat)
    (h : i < l₁.length) : (l₁ ++ l₂)[i]? = l₁[i]? := by
  rw [List.getElem?_append]
  simp [h]

theorem entityId_entityNew (g i : Nat) (h : i < 2 ^ ID_BITS) :
    entityId (entityNew g i) = i := by
  rw [entityNew, entityId, ID_BITS] at *
  omega

theorem entityGen_entityNew (g i : Nat) (h : i < 2 ^ ID_BITS) :
    entityGen (entityNew g i) = g % 256 := by
  rw [entityNew, entityGen, ID_BITS] at *
  omega

namespace EntityManager

theorem lt_length_of_gens_getElem? {m : EntityManager} {i v : Nat}
    (h : m.gens[i]? = some v) : i < m.gens.length := by
  by_contra hc
  rw [List.getElem?_eq_none_iff.mpr (Nat.le_of_not_lt hc)] at h
  exact Option.noConfusion h

/-- One step changes the generation entry at a fixed in-range index i
only when it is an effective destroy whose argument carries index i;
next never touches existing generation entries. -/
theorem step_gens_at (m m1 : EntityManager) (op : Op) (i : Nat)
    (hlt : i < m.gens.length)
    (h : step m op = some m1) :
    m1.gens[i]? = m.gens[i]? ∨
    (∃ e2, op = Op.destroy e2 ∧ entityId e2 = i ∧
      m.gens[i]? = some (entityGen e2) ∧
      m1.gens[i]? = some ((entityGen e2 + 1) % 256)) := by
  match op with
  | Op.next =>
    left
    rw [step] at h
    cases hnext : m.next with
    | none => rw [hnext] at h; exact Option.noConfusion h
    | some p =>
      rw [hnext] at h
      simp only [Option.map_some', Option.some.injEq] at h
      rw [next] at hnext
      by_cases hq : MIN_UNUSED ≤ m.unused.length
      · rw [if_pos hq] at hnext
        cases hu : m.unused with
        | nil => rw [hu] at hnext; exact absurd hnext (by simp)
        | cons id rest =>
          rw [hu] at hnext
          simp only [] at hnext
          cases hgid : m.gens[id]? with
          | none => rw [hgid] at hnext; exact absurd hnext (by simp)
          | some g0 =>
            rw [hgid] at hnext
            simp only [Option.some.injEq] at hnext
            rw [← h, ← hnext]
      · rw [if_neg hq] at hnext
        simp only [Option.some.injEq] at hnext
        rw [← h, ← hnext]
        exact getElem?_append_of_lt m.gens [0] i hlt
  | Op.destroy e2 =>
    rw [step, destroy] at h
    cases hal : m.is_alive e2 with
    | none => rw [hal] at h; exact Option.noConfusion h
    | some b =>
      rw [hal] at h
      cases b
      · left
        rw [Option.some.injEq] at h
        rw [h]
      · rw [Option.some.injEq] at h
        have hgeq : m.gens[entityId e2]? = some (entityGen e2) := by
          rw [is_alive] at hal
          cases hge : m.gens[entityId e2]? with
          | none => rw [hge] at hal; exact absurd hal (by simp)
          | some g0 =>
            rw [hge] at hal
            simp only [Option.map_some', Option.some.injEq, beq_iff_eq] at hal
            rw [hal]
        by_cases hid : entityId e2 = i
        · right
          refine ⟨e2, rfl, hid, hid ▸ hgeq, ?_⟩
          rw [← h]
          show (m.gens.set (entityId e2) ((entityGen e2 + 1) % 256))[i]? = _
          rw [← hid]
          exact List.getElem?_set_self (lt_length_of_gens_getElem? hgeq)
        · left
          rw [← h]
          exact List.getElem?_set_ne hid

/-- Running a trace from a state whose generation entry at i sits c
steps past g (cyclically, 1 ≤ c ≤ 255) keeps the entry strictly between
1 and 255 steps past g as long as the trace holds too few destroys at i
to complete the 256-step wrap. -/
theorem run_gen_shifted (ops : List Op) (m : EntityManager) (i g c : Nat)
    (hc1 : 1 ≤ c)
    (hc2 : c + countDestroysAt i ops ≤ 255)
    (hgens : m.gens[i]? = some ((g + c) % 256)) :
    ∀ m', run m ops = some m' →
      ∃ c', 1 ≤ c' ∧ c' ≤ 255 ∧ m'.gens[i]? = some ((g + c') % 256) := by
  induction ops generalizing m c with
  | nil =>
    intro m' hrun
    have hm : m = m' := by
      rw [run, List.foldlM_nil] at hrun
      exact Option.some.inj hrun
    subst hm
    refine ⟨c, hc1, ?_, hgens⟩
    have : countDestroysAt i [] = 0 := rfl
    omega
  | cons op rest ih =>
    intro m' hrun
    rw [run, List.foldlM_cons] at hrun
    cases hstep : step m op with
    | none => rw [hstep] at hrun; exact absurd hrun (by simp)
    | some m1 =>
      rw [hstep] at hrun
      simp only [Option.bind_eq_bind, Option.some_bind] at hrun
      have hrun1 : run m1 rest = some m' := hrun
      rcases step_gens_at m m1 op i (lt_length_of_gens_getElem? hgens) hstep with
        hsame | ⟨e2, hop, hid, hold, hnew⟩
      · have hmono : countDestroysAt i rest ≤ countDestroysAt i (op :: rest) := by
          rw [countDestroysAt, countDestroysAt, List.countP_cons]
          omega
        exact ih m1 c hc1 (by omega) (hsame.trans hgens) m' hrun1
      · have he2 : entityGen e2 = (g + c) % 256 :=
          Option.some.inj ((hold.symm.trans hgens))
        have hnew2 : m1.gens[i]? = some ((g + (c + 1)) % 256) := by
          rw [hnew, he2]
          congr 1
          omega
        have hcnt : countDestroysAt i (op :: rest) = countDestroysAt i rest + 1 := by
          subst hop
          rw [countDestroysAt, countDestroysAt, List.countP_cons]
          simp [hid]
        exact ih m1 (c + 1) (by omega) (by omega) hnew2 m' hrun1

end EntityManager

/-! ## Claim theorems -/

/-- C1: the spec's storage round-trip (set then get yields the value)
fails on the code.  DefaultStorage::set's while loop only extends the
sparse index table to length id, so the immediate indices[id] read is
out of bounds and panics on every call, already on a fresh storage with
entity index 0.  Moreover, even started from a state whose index table
is long enough, the append branch records Some(data.len()) taken after
the push, one past the new element, so the following get panics on an
out-of-bounds data read instead of yielding the value. -/
theorem c1_set_get_roundtrip_bug :
    DefaultStorage.set (⟨[], [], []⟩ : DefaultStorage Nat) (entityNew 0 0) 42 = none ∧
    DefaultStorage.set (⟨[], [none], []⟩ : DefaultStorage Nat) (entityNew 0 0) 42 =
      some ⟨[(entityNew 0 0, 42)], [some 1], []⟩ ∧
    DefaultStorage.get (⟨[(entityNew 0 0, 42)], [some 1], []⟩ : DefaultStorage Nat)
      (entityNew 0 0) = none := by
  decide

/-- C3 counterexample: on a set declaring TypeIds 1 and 2, locking the
group (1, 2) acquires the storage locks in the event order [2, 1] --
the last listed type first -- not in the declared order [1, 2] the
claim states. -/
theorem c3_counterexample :
    (LockGroup.lock (SetChain.entry 1 10 (SetChain.entry 2 20 SetChain.empty))
        [1, 2]).map Prod.snd = some [2, 1] ∧
    ([2, 1] : List Nat) ≠ [1, 2] := by
  decide

/-- C3 amended: during one burst acquisition, LockGroup::lock acquires
the per-component-type storage locks in exactly the reverse of the
order the group's tuple lists the component types (the last listed
type is locked first), because the generated code locks the tail
recursively before acquiring the head type's lock. -/
theorem c3_lock_order_is_reverse {V : Type} (s : SetChain V) (l : List Nat)
    (sub : Subset V) (evs : List Nat)
    (h : LockGroup.lock s l = some (sub, evs)) :
    evs = l.reverse := by
  induction l generalizing sub evs with
  | nil =>
    simp [LockGroup.lock] at h
    simp [h.2]
  | cons t rest ih =>
    simp only [LockGroup.lock, Option.bind_eq_bind, Option.pure_def] at h
    cases hrec : LockGroup.lock s rest with
    | none => rw [hrec] at h; simp at h
    | some p =>
      obtain ⟨parent, evs0⟩ := p
      rw [hrec] at h
      cases hls : s.lock_storage t with
      | error u => rw [Option.some_bind] at h; rw [hls] at h; simp at h
      | ok st =>
        rw [Option.some_bind] at h
        rw [hls] at h
        simp only [Option.some.injEq, Prod.mk.injEq] at h
        rw [← h.2, ih parent evs0 hrec]
        simp

/-- C3 amended, witnessed at the concrete two-type set. -/
theorem c3_lock_order_witness :
    LockGroup.lock (SetChain.entry 1 10 (SetChain.entry 2 20 SetChain.empty)) [1, 2] =
      some (Subset.entry 1 10 (Subset.entry 2 20 Subset.empty), [2, 1]) ∧
    ([2, 1] : List Nat) = ([1, 2] : List Nat).reverse :=
  ⟨by decide,
   c3_lock_order_is_reverse (SetChain.entry 1 10 (SetChain.entry 2 20 SetChain.empty))
     [1, 2] (Subset.entry 1 10 (Subset.entry 2 20 Subset.empty)) [2, 1] (by decide)⟩

set_option maxRecDepth 100000 in
/-- C4 counterexample: destroy accepts any raw handle value, and each
effective destroy bumps the 8-bit generation of its index.  Issue
entity (gen 0, index 0), destroy it, then run 255 further destroy
calls carrying index 0 with generations 1 through 255 and no next()
call at all: the generation entry wraps back to 0 and the original
destroyed handle reads as alive again, although its index was never
reissued.  This contradicts the claim that is_alive(e) stays false
across all subsequent operations until the index is reissued. -/
theorem c4_counterexample :
    EntityManager.next ⟨[], []⟩ = some (⟨[0], []⟩, entityNew 0 0) ∧
    EntityManager.destroy ⟨[0], []⟩ (entityNew 0 0) = some ⟨[1], [0]⟩ ∧
    Op.next ∉ (List.range 255).map (fun k => Op.destroy (entityNew (k + 1) 0)) ∧
    (EntityManager.run ⟨[1], [0]⟩
        ((List.range 255).map (fun k => Op.destroy (entityNew (k + 1) 0)))).bind
      (fun m => m.is_alive (entityNew 0 0)) = some true := by
  refine ⟨by decide, by decide, by decide, by decide⟩

/-- C4 amended: a handle from next() is alive immediately after
issuance, for any well-formed manager state (index table shorter than
2^24 with u8 generation entries and in-range free indices).  After
destroy(e) of a live e, is_alive(e) stays false across all subsequent
next()/destroy() operations -- including across any reissue of e's
index, which then carries a different generation -- provided at most
254 of those operations are destroy calls carrying e's index, i.e. the
8-bit generation counter of that index does not wrap all the way
around. -/
theorem c4_amended_liveness (m m2 m3 : EntityManager) (e : Nat) (ops : List Op)
    (halive : m.is_alive e = some true)
    (hdestroy : m.destroy e = some m2)
    (hcount : EntityManager.countDestroysAt (entityId e) ops ≤ 254)
    (hrun : EntityManager.run m2 ops = some m3) :
    m3.is_alive e = some false ∧
    (∀ (m4 : EntityManager) (e2 : Nat), m3.next = some (m4, e2) →
      m4.is_alive e = some false) ∧
    (∀ (n n' : EntityManager) (x : Nat), n.wf → n.next = some (n', x) →
      n'.is_alive x = some true) := by
  have hgeq : m.gens[entityId e]? = some (entityGen e) := by
    have halive2 := halive
    rw [EntityManager.is_alive] at halive2
    cases hge : m.gens[entityId e]? with
    | none => rw [hge] at halive2; exact absurd halive2 (by simp)
    | some g0 =>
      rw [hge] at halive2
      simp only [Option.map_some', Option.some.injEq, beq_iff_eq] at halive2
      rw [halive2]
  have hlt : entityId e < m.gens.length := EntityManager.lt_length_of_gens_getElem? hgeq
  rw [EntityManager.destroy, halive, Option.some.injEq] at hdestroy
  have hm2gens : m2.gens[entityId e]? = some ((entityGen e + 1) % 256) := by
    rw [← hdestroy]
    exact List.getElem?_set_self hlt
  obtain ⟨c', hc1', hc255, hge3⟩ :=
    EntityManager.run_gen_shifted ops m2 (entityId e) (entityGen e) 1
      (le_refl 1) (by omega) hm2gens m3 hrun
  have hgenlt : entityGen e < 256 := by rw [entityGen]; omega
  have hneq : (entityGen e + c') % 256 ≠ entityGen e := by omega
  have halive3 : m3.is_alive e = some false := by
    rw [EntityManager.is_alive, hge3]
    simp [hneq]
  refine ⟨halive3, ?_, ?_⟩
  · intro m4 e2 hn
    have hstep : EntityManager.step m3 Op.next = some m4 := by
      rw [EntityManager.step, hn]
      rfl
    rcases EntityManager.step_gens_at m3 m4 Op.next (entityId e)
        (EntityManager.lt_length_of_gens_getElem? hge3) hstep with hsame | ⟨e3, hop, _⟩
    · rw [EntityManager.is_alive, hsame, hge3]
      simp [hneq]
    · exact absurd hop (by simp)
  · intro n n' x hwfn hn
    obtain ⟨hlen, hgb, hub⟩ := hwfn
    rw [EntityManager.next] at hn
    by_cases hq : MIN_UNUSED ≤ n.unused.length
    · rw [if_pos hq] at hn
      cases hu : n.unused with
      | nil => rw [hu] at hn; exact absurd hn (by simp)
      | cons id rest =>
        rw [hu] at hn
        simp only [] at hn
        have hid : id < n.gens.length := hub id (by rw [hu]; exact List.mem_cons_self id rest)
        have hg2 : n.gens[id]? = some (n.gens.get ⟨id, hid⟩) := List.getElem?_eq_getElem hid
        rw [hg2] at hn
        simp only [Option.some.injEq] at hn
        injection hn with hn1 hn2
        subst hn1
        subst hn2
        have hidlt : id < 2 ^ ID_BITS := lt_trans hid hlen
        have hg0lt : n.gens.get ⟨id, hid⟩ < 256 := hgb _ (List.get_mem n.gens id hid)
        rw [EntityManager.is_alive, entityId_entityNew _ _ hidlt,
          entityGen_entityNew _ _ hidlt]
        show (n.gens[id]?).map _ = some true
        rw [hg2]
        simp only [Option.map_some', Option.some.injEq, beq_iff_eq]
        exact (Nat.mod_eq_of_lt hg0lt).symm
    · rw [if_neg hq] at hn
      simp only [Option.some.injEq] at hn
      injection hn with hn1 hn2
      subst hn1
      subst hn2
      rw [EntityManager.is_alive, entityId_entityNew _ _ hlen,
        entityGen_entityNew _ _ hlen]
      show ((n.gens ++ [0])[n.gens.length]?).map _ = some true
      rw [List.getElem?_concat_length]
      simp

/-- C4 amended, witnessed: destroying the just-issued entity (gen 0,
index 0) leaves it not alive. -/
theorem c4_amended_liveness_witness :
    EntityManager.destroy ⟨[0], []⟩ (entityNew 0 0) = some ⟨[1], [0]⟩ ∧
    EntityManager.is_alive ⟨[1], [0]⟩ (entityNew 0 0) = some false :=
  ⟨by decide,
   (c4_amended_liveness ⟨[0], []⟩ ⟨[1], [0]⟩ ⟨[1], [0]⟩ (entityNew 0 0) []
     (by decide) (by decide) (by decide) (by decide)).1⟩

/-- C5: when the free queue holds at least MIN_UNUSED (1024) entries,
next() pops the oldest freed index and returns it with its current
generation; otherwise it extends the generation table with a fresh
index at generation 0, and that fresh index (the previous table
length) is not any previously freed, still-queued index. -/
theorem c5_next_hysteresis (m : EntityManager)
    (hinv : ∀ i ∈ m.unused, i < m.gens.length) :
    (MIN_UNUSED ≤ m.unused.length →
      ∃ i rest g, m.unused = i :: rest ∧ m.gens[i]? = some g ∧
        m.next = some (⟨m.gens, rest⟩, entityNew g i)) ∧
    (m.unused.length < MIN_UNUSED →
      m.next = some (⟨m.gens ++ [0], m.unused⟩, entityNew 0 m.gens.length) ∧
      m.gens.length ∉ m.unused) := by
  constructor
  · intro hge
    match hu : m.unused with
    | [] =>
      rw [hu] at hge
      simp [MIN_UNUSED] at hge
    | i :: rest =>
      have hi : i < m.gens.length := hinv i (by rw [hu]; exact List.mem_cons_self i rest)
      have hg : m.gens[i]? = some (m.gens.get ⟨i, hi⟩) := List.getElem?_eq_getElem hi
      refine ⟨i, rest, m.gens.get ⟨i, hi⟩, rfl, hg, ?_⟩
      have hge2 : MIN_UNUSED ≤ (i :: rest).length := hu ▸ hge
      simp [EntityManager.next, hu, hg]
      simpa using hge2
  · intro hlt
    refine ⟨?_, fun hmem => absurd (hinv _ hmem) (lt_irrefl _)⟩
    rw [EntityManager.next, if_neg (Nat.not_le.mpr hlt)]

/-- C5 witnessed on the empty manager: the fresh branch hands out index
0 at generation 0 and no freed index is touched. -/
theorem c5_next_hysteresis_witness :
    EntityManager.next ⟨[], []⟩ =
      some (⟨([] : List Nat) ++ [0], []⟩, entityNew 0 (List.length ([] : List Nat))) ∧
    List.length ([] : List Nat) ∉ ([] : List Nat) :=
  (c5_next_hysteresis ⟨[], []⟩ (by decide)).2 (by decide)

/-- C6: whenever an index entry exists for e's index (and references a
valid offset, as every state the code maintains does),
DefaultStorage::remove pushes that offset onto the free queue and
clears the index entry unconditionally, and returns the stored value
exactly when the stored entity at the offset equals e bit for bit
(index and generation); otherwise it returns None.  When no index
entry exists, nothing changes and None is returned. -/
theorem c6_remove_releases_and_matches {T : Type} (s : DefaultStorage T) (e idx : Nat)
    (hidx : s.indices[entityId e]? = some (some idx))
    (hlt : idx < s.data.length) :
    (∃ p, s.data[idx]? = some p ∧
      s.remove e = some ((if p.1 == e then some p.2 else none),
        ⟨s.data, s.indices.set (entityId e) none, s.unused ++ [idx]⟩)) ∧
    (∀ (s2 : DefaultStorage T) (e2 : Nat),
      s2.indices[entityId e2]? = some none ∨ s2.indices[entityId e2]? = none →
      s2.remove e2 = some (none, s2)) := by
  constructor
  · have hp : s.data[idx]? = some (s.data.get ⟨idx, hlt⟩) := List.getElem?_eq_getElem hlt
    exact ⟨s.data.get ⟨idx, hlt⟩, hp, by simp only [DefaultStorage.remove, hidx, hp]⟩
  · intro s2 e2 h2
    rcases h2 with h2 | h2 <;> simp only [DefaultStorage.remove, h2]

/-- C6 witnessed: removing a stale handle (same index 0, generation 2)
from a storage whose slot holds generation 1 releases offset 0 and
clears the index entry but returns None. -/
theorem c6_remove_witness :
    DefaultStorage.remove (⟨[(entityNew 1 0, 7)], [some 0], []⟩ : DefaultStorage Nat)
      (entityNew 2 0) =
    some (none, ⟨[(entityNew 1 0, 7)], [none], [0]⟩) := by
  obtain ⟨⟨p, hp, hr⟩, -⟩ :=
    c6_remove_releases_and_matches (⟨[(entityNew 1 0, 7)], [some 0], []⟩ : DefaultStorage Nat)
      (entityNew 2 0) 0 (by decide) (by decide)
  have hpv : p = (entityNew 1 0, 7) := by
    have hc : (([(entityNew 1 0, 7)] : List (Nat × Nat)))[0]? = some (entityNew 1 0, 7) := rfl
    exact (Option.some.injEq _ _ ▸ (hc.symm.trans hp) : _).symm ▸ rfl
  rw [hpv] at hr
  rw [hr]
  decide

/-- C7: in any storage state where e's index slot is occupied but the
entity stored at the referenced offset differs from e (stale data left
by a previous generation of the same index), has reports false and get
and get_mut report absence: stale data is never surfaced by a read. -/
theorem c7_stale_never_surfaced {T : Type} (s : DefaultStorage T) (e idx : Nat)
    (p : Nat × T)
    (hidx : s.indices[entityId e]? = some (some idx))
    (hp : s.data[idx]? = some p)
    (hne : p.1 ≠ e) :
    s.has e = some false ∧ s.get e = some none ∧ s.get_mut e = some none := by
  have hb : (p.1 == e) = false := by simp [hne]
  refine ⟨?_, ?_, ?_⟩
  · simp only [DefaultStorage.has, hidx, hp, Option.map_some]
    simp [hb]
  · simp only [DefaultStorage.get, hidx, hp, hb, Bool.false_eq_true, if_false]
  · simp only [DefaultStorage.get_mut, hidx, hp, hb, Bool.false_eq_true, if_false]

/-- C7 witnessed on a one-slot storage holding generation 1 data probed
with the recycled generation 2 handle of the same index. -/
theorem c7_stale_never_surfaced_witness :
    DefaultStorage.has (⟨[(entityNew 1 0, 7)], [some 0], []⟩ : DefaultStorage Nat)
      (entityNew 2 0) = some false ∧
    DefaultStorage.get (⟨[(entityNew 1 0, 7)], [some 0], []⟩ : DefaultStorage Nat)
      (entityNew 2 0) = some none ∧
    DefaultStorage.get_mut (⟨[(entityNew 1 0, 7)], [some 0], []⟩ : DefaultStorage Nat)
      (entityNew 2 0) = some none :=
  c7_stale_never_surfaced (⟨[(entityNew 1 0, 7)], [some 0], []⟩ : DefaultStorage Nat)
    (entityNew 2 0) 0 (entityNew 1 0, 7) (by decide) (by decide) (by decide)

/-- C9: a locked subset answers get_storage and get_storage_mut with an
explicit None for any component type its lock group does not include,
never faulting, whereas Set::lock_storage on a chain that does not
declare the type runs into the Empty base case and panics. -/
theorem c9_absence_vs_panic {V : Type} (sub : Subset V) (s : SetChain V) (t : Nat)
    (h1 : t ∉ sub.tids) (h2 : t ∉ s.tids) :
    sub.get_storage t = none ∧ sub.get_storage_mut t = none ∧
    s.lock_storage t = Except.error () := by
  refine ⟨?_, ?_, ?_⟩
  · induction sub with
    | empty => rfl
    | entry tid g parent ih =>
      simp only [Subset.tids, List.mem_cons, not_or] at h1
      rw [Subset.get_storage, if_neg (by simp [Ne.symm h1.1]), ih h1.2]
  · induction sub with
    | empty => rfl
    | entry tid g parent ih =>
      simp only [Subset.tids, List.mem_cons, not_or] at h1
      rw [Subset.get_storage_mut, if_neg (by simp [Ne.symm h1.1]), ih h1.2]
  · induction s with
    | empty => rfl
    | entry tid g parent ih =>
      simp only [SetChain.tids, List.mem_cons, not_or] at h2
      rw [SetChain.lock_storage, if_neg (by simp [Ne.symm h2.1]), ih h2.2]

/-- C9 witnessed: TypeId 3 is in neither the subset nor the set chain
declaring TypeIds 1 and 2. -/
theorem c9_absence_vs_panic_witness :
    Subset.get_storage (Subset.entry 1 10 (Subset.entry 2 20 Subset.empty)) 3 = none ∧
    Subset.get_storage_mut (Subset.entry 1 10 (Subset.entry 2 20 Subset.empty)) 3 = none ∧
    SetChain.lock_storage (SetChain.entry 1 10 (SetChain.entry 2 20 SetChain.empty)) 3 =
      Except.error () :=
  c9_absence_vs_panic (Subset.entry 1 10 (Subset.entry 2 20 Subset.empty))
    (SetChain.entry 1 10 (SetChain.entry 2 20 SetChain.empty)) 3 (by decide) (by decide)

/-- C2: under the documented filter contract (a predicate may only hold
for entities whose value the filter's storage can fetch, and the head
predicate only for entities the head storage lists), with a
duplicate-free head storage and in-range entity indices, for_each
returns exactly the closure outputs for the entities that are alive and
pass every predicate, in the head storage's iteration order filtered by
the later predicates, each such entity exactly once, with the item
holding each filter's stored value in tuple order. -/
theorem c2_pipeline_visits_exactly {V U : Type} (em : EntityManager) (f0 : FilterM V)
    (tail : List (FilterM V)) (fn : Nat → List V → U)
    (hwf : ∀ e ∈ f0.entities, entityId e < em.gens.length)
    (hcontract : ∀ fi ∈ f0 :: tail, ∀ e, fi.pred e = true → (fi.get e).isSome = true)
    (hnodup : f0.entities.Nodup)
    (hmem : ∀ e, f0.pred e = true → e ∈ f0.entities) :
    Pipeline.forEach em f0 tail fn =
      some ((f0.entities.filter (Pipeline.goodB em f0 tail)).map
        (fun e => fn e (Pipeline.itemOf f0 tail e))) ∧
    (∀ e, e ∈ f0.entities.filter (Pipeline.goodB em f0 tail) ↔
      (em.aliveB e = true ∧ (f0 :: tail).all (fun fi => fi.pred e) = true)) ∧
    (∀ e, e ∈ f0.entities.filter (Pipeline.goodB em f0 tail) →
      (f0.entities.filter (Pipeline.goodB em f0 tail)).count e = 1) := by
  have hseed := Pipeline.seed_eq em f0 hwf
  have hsurv : (Pipeline.refineAll tail
      ((((f0.entities.filter (em.aliveB)).filter f0.pred).map some))).filterMap id
      = f0.entities.filter (Pipeline.goodB em f0 tail) := by
    rw [Pipeline.filterMap_id_refineAll]
    have h1 : ((((f0.entities.filter (em.aliveB)).filter f0.pred)).map some).filterMap id
        = (f0.entities.filter (em.aliveB)).filter f0.pred := by simp
    rw [h1, List.filter_filter, List.filter_filter]
    refine List.filter_congr (fun e _ => ?_)
    show ((tail.all (fun fi => fi.pred e) && f0.pred e) && em.aliveB e)
      = Pipeline.goodB em f0 tail e
    rw [Pipeline.goodB]
    cases em.aliveB e <;> cases f0.pred e <;>
      cases tail.all (fun fi => fi.pred e) <;> rfl
  refine ⟨?_, ?_, ?_⟩
  · rw [Pipeline.forEach, hseed, Option.bind_eq_bind, Option.some_bind, hsurv]
    refine Pipeline.mapM_eq_map_of_some _ _ _ (fun e he => ?_)
    have hg := (List.mem_filter.mp he).2
    rw [Pipeline.goodB] at hg
    have ha : em.aliveB e = true := by
      cases hx : em.aliveB e
      · rw [hx] at hg; simp at hg
      · rfl
    have hp0 : f0.pred e = true := by
      cases hx : f0.pred e
      · rw [hx] at hg; simp at hg
      · rfl
    have hpt : ∀ fi ∈ tail, fi.pred e = true := by
      have hall : tail.all (fun fi => fi.pred e) = true := by
        cases hx : tail.all (fun fi => fi.pred e)
        · rw [hx] at hg; simp at hg
        · rfl
      rw [List.all_eq_true] at hall
      exact hall
    have h0 : (f0.get e).isSome = true :=
      hcontract f0 (List.mem_cons_self f0 tail) e hp0
    have ht : ∀ fi ∈ tail, (fi.get e).isSome = true :=
      fun fi hfi => hcontract fi (List.mem_cons_of_mem f0 hfi) e (hpt fi hfi)
    rw [show (do
        let item ← Pipeline.materialize f0 tail e
        pure (fn e item) : Option U)
      = (Pipeline.materialize f0 tail e).bind (fun item => some (fn e item)) from rfl]
    rw [Pipeline.materialize_eq f0 tail e h0 ht, Option.some_bind]
  · intro e
    rw [List.mem_filter]
    constructor
    · rintro ⟨hm1, hg⟩
      rw [Pipeline.goodB] at hg
      have ha : em.aliveB e = true := by
        cases hx : em.aliveB e
        · rw [hx] at hg; simp at hg
        · rfl
      have hp0 : f0.pred e = true := by
        cases hx : f0.pred e
        · rw [hx] at hg; simp at hg
        · rfl
      have hall : tail.all (fun fi => fi.pred e) = true := by
        cases hx : tail.all (fun fi => fi.pred e)
        · rw [hx] at hg; simp at hg
        · rfl
      exact ⟨ha, by simp [List.all_cons, hp0, hall]⟩
    · rintro ⟨ha, hall⟩
      rw [List.all_cons] at hall
      have hp0 : f0.pred e = true := by
        cases hx : f0.pred e
        · rw [hx] at hall; simp at hall
        · rfl
      have htl : tail.all (fun fi => fi.pred e) = true := by
        cases hx : tail.all (fun fi => fi.pred e)
        · rw [hx] at hall; simp at hall
        · rfl
      exact ⟨hmem e hp0, by simp [Pipeline.goodB, ha, hp0, htl]⟩
  · intro e he
    exact List.count_eq_one_of_mem (hnodup.filter _) he

/-- C2 witnessed on the spec's Scenario A shape: entities 0, 1, 2 are
alive, the head storage lists 0 and 1, the second filter accepts 1 and
2; the query yields exactly entity 1 with both filters' values. -/
theorem c2_pipeline_visits_exactly_witness :
    Pipeline.forEach ⟨[0, 0, 0], []⟩
      (FilterM.mk [0, 1] (fun e => e == 0 || e == 1) (fun e => some e))
      [FilterM.mk [1, 2] (fun e => e == 1 || e == 2) (fun e => some (e + 10))]
      (fun e vs => (e, vs)) = some [(1, [1, 11])] := by
  have h := (c2_pipeline_visits_exactly ⟨[0, 0, 0], []⟩
    (FilterM.mk [0, 1] (fun e => e == 0 || e == 1) (fun e => some e))
    [FilterM.mk [1, 2] (fun e => e == 1 || e == 2) (fun e => some (e + 10))]
    (fun e vs => (e, vs))
    (by decide)
    (by
      intro fi hfi x hx
      rcases List.mem_cons.mp hfi with h1 | h1
      · rw [h1]; rfl
      · rcases List.mem_cons.mp h1 with h2 | h2
        · rw [h2]; rfl
        · exact absurd h2 (List.not_mem_nil fi))
    (by decide)
    (by
      intro e he
      have : e = 0 ∨ e = 1 := by simpa using he
      rcases this with h1 | h1 <;> simp [h1])).1
  rw [h]
  decide

/-- C8: any entity that survives the seed and refine phases passed
every filter's predicate, so under the documented filter contract
(a predicate holds only when the filter's storage fetch succeeds) every
per-filter fetch in the materialize step returns a value: the unwrap
panic there is unreachable when no mutation intervenes. -/
theorem c8_materialize_fetch_never_absent {V : Type} (em : EntityManager)
    (f0 : FilterM V) (tail : List (FilterM V)) (e : Nat) (cands : List (Option Nat))
    (hcontract : ∀ fi ∈ f0 :: tail, ∀ x, fi.pred x = true → (fi.get x).isSome = true)
    (hseed : Pipeline.seed em f0 = some cands)
    (hsurv : e ∈ (Pipeline.refineAll tail cands).filterMap id) :
    (f0.get e).isSome = true ∧ (∀ fi ∈ tail, (fi.get e).isSome = true) ∧
    Pipeline.materialize f0 tail e = some (Pipeline.itemOf f0 tail e) := by
  have hinv : ∃ vs, f0.entities.mapM (fun x => em.verify x) = some vs ∧
      cands = ((vs.filterMap id).filter f0.pred).map some := by
    rw [Pipeline.seed] at hseed
    cases hm : f0.entities.mapM (fun x => em.verify x) with
    | none =>
      rw [hm] at hseed
      simp at hseed
    | some vs =>
      rw [hm] at hseed
      refine ⟨vs, rfl, ?_⟩
      simpa using hseed.symm
  obtain ⟨vs, hm, hcands⟩ := hinv
  subst hcands
  rw [Pipeline.filterMap_id_refineAll] at hsurv
  have hmem2 := List.mem_filter.mp hsurv
  have hall : ∀ fi ∈ tail, fi.pred e = true := by
    have h2 := hmem2.2
    rw [List.all_eq_true] at h2
    exact h2
  have hpred0 : f0.pred e = true := by
    have h3 : e ∈ (vs.filterMap id).filter f0.pred := by simpa using hmem2.1
    exact (List.mem_filter.mp h3).2
  have h0 : (f0.get e).isSome = true :=
    hcontract f0 (List.mem_cons_self f0 tail) e hpred0
  have ht : ∀ fi ∈ tail, (fi.get e).isSome = true :=
    fun fi hfi => hcontract fi (List.mem_cons_of_mem f0 hfi) e (hall fi hfi)
  exact ⟨h0, ht, Pipeline.materialize_eq f0 tail e h0 ht⟩

/-- C8 witnessed: a one-filter pipeline over a single alive entity;
the survivor's fetch succeeds. -/
theorem c8_materialize_fetch_never_absent_witness :
    Pipeline.seed ⟨[0], []⟩ (FilterM.mk [0] (fun _ => true) (fun e => some e)) =
      some [some 0] ∧
    ((FilterM.mk [0] (fun _ => true) (fun e => some e)).get 0).isSome = true ∧
    Pipeline.materialize (FilterM.mk [0] (fun _ => true) (fun e => some e)) [] 0 =
      some (Pipeline.itemOf (FilterM.mk [0] (fun _ => true) (fun e => some e)) [] 0) := by
  refine ⟨by decide, ?_⟩
  have h := c8_materialize_fetch_never_absent ⟨[0], []⟩
    (FilterM.mk [0] (fun _ => true) (fun e => some e)) [] 0 [some 0]
    (by intro fi hfi x hx
        rcases List.mem_cons.mp hfi with h1 | h1
        · rw [h1]; rfl
        · exact absurd h1 (List.not_mem_nil fi))
    (by decide)
    (by decide)
  exact ⟨h.1, h.2.2⟩

/-- C10: for a handle whose index is at or past the number of indices
ever allocated, is_alive indexes the generation table out of bounds and
panics instead of reporting not-alive, and verify and destroy, which
call it first, panic the same way. -/
theorem c10_foreign_handle_panics (m : EntityManager) (e : Nat)
    (h : m.gens.length ≤ entityId e) :
    m.is_alive e = none ∧ m.verify e = none ∧ m.destroy e = none := by
  have hg : m.gens[entityId e]? = none := List.getElem?_eq_none_iff.mpr h
  refine ⟨?_, ?_, ?_⟩
  · rw [EntityManager.is_alive, hg]; rfl
  · rw [EntityManager.verify, EntityManager.is_alive, hg]; rfl
  · simp [EntityManager.destroy, EntityManager.is_alive, hg]

/-- C10 witnessed: the fresh manager has an empty table, so probing the
handle with index 0 panics in all three entry points. -/
theorem c10_foreign_handle_panics_witness :
    EntityManager.is_alive ⟨[], []⟩ 0 = none ∧
    EntityManager.verify ⟨[], []⟩ 0 = none ∧
    EntityManager.destroy ⟨[], []⟩ 0 = none :=
  c10_foreign_handle_panics ⟨[], []⟩ 0 (by decide)
